import Mathlib

/-!
# Carya core: shallow embedding and verification

This file embeds the core of the Carya change-tracking system — the
unified chunking strategy (`internal/chunk/unified.go`), the lifecycle
manager (`internal/chunk/manager.go`) and the ignore-rule matcher of the
filesystem watcher (`internal/watcher/watcher.go`) — as executable Lean
definitions, and proves properties of them.

Modelling conventions:
* Go `time.Time` values are modelled as `Int` nanoseconds since the Unix
  epoch; `time.Duration` is likewise `Int` nanoseconds, so `t.Sub(u)` is
  plain integer subtraction, exactly as in Go (`Duration` is an integer
  nanosecond count there as well).
* File contents (`[]byte` in Go) are modelled as `String`; hashing works
  on the UTF-8 byte encoding of the string, which is byte-for-byte the
  `[]byte` value Go reads from a text file.
* The Go `map[string]*activeChunk` is modelled as an association list
  with distinct keys; iteration order, unspecified for a Go map, is the
  insertion order of the list.
-/

namespace Carya

/-! ## Bytes and SHA-256 (`crypto/sha256`, used by `UnifiedStrategy.hashContent`) -/

/-- UTF-8 encoding of one character, as byte values. -/
def utf8EncByte (c : Char) : List Nat :=
  let n := c.toNat
  if n < 128 then [n]
  else if n < 2048 then [192 + n / 64, 128 + n % 64]
  else if n < 65536 then [224 + n / 4096, 128 + (n / 64) % 64, 128 + n % 64]
  else [240 + n / 262144, 128 + (n / 4096) % 64, 128 + (n / 64) % 64, 128 + n % 64]

/-- The UTF-8 bytes of a string: the `[]byte` value Go sees for text content. -/
def utf8Bytes (s : String) : List Nat :=
  s.data.flatMap utf8EncByte

/-- Truncation to 32 bits. -/
def w32 (n : Nat) : Nat := n % 4294967296

/-- 32-bit right rotation of a value `n < 2^32`. -/
def rotr32 (n s : Nat) : Nat := (n / 2 ^ s) ||| ((n % 2 ^ s) * 2 ^ (32 - s))

/-- SHA-256 `Ch` function. -/
def chFn (x y z : Nat) : Nat := (x &&& y) ^^^ ((x ^^^ 4294967295) &&& z)

/-- SHA-256 `Maj` function. -/
def majFn (x y z : Nat) : Nat := (x &&& y) ^^^ (x &&& z) ^^^ (y &&& z)

/-- SHA-256 big sigma 0. -/
def bigSig0 (x : Nat) : Nat := rotr32 x 2 ^^^ rotr32 x 13 ^^^ rotr32 x 22

/-- SHA-256 big sigma 1. -/
def bigSig1 (x : Nat) : Nat := rotr32 x 6 ^^^ rotr32 x 11 ^^^ rotr32 x 25

/-- SHA-256 small sigma 0. -/
def smallSig0 (x : Nat) : Nat := rotr32 x 7 ^^^ rotr32 x 18 ^^^ (x / 8)

/-- SHA-256 small sigma 1. -/
def smallSig1 (x : Nat) : Nat := rotr32 x 17 ^^^ rotr32 x 19 ^^^ (x / 1024)

/-- The 64 SHA-256 round constants. -/
def shaK : List Nat :=
  [1116352408, 1899447441, 3049323471, 3921009573, 961987163,
   1508970993, 2453635748, 2870763221, 3624381080, 310598401,
   607225278, 1426881987, 1925078388, 2162078206, 2614888103,
   3248222580, 3835390401, 4022224774, 264347078, 604807628,
   770255983, 1249150122, 1555081692, 1996064986, 2554220882,
   2821834349, 2952996808, 3210313671, 3336571891, 3584528711,
   113926993, 338241895, 666307205, 773529912, 1294757372,
   1396182291, 1695183700, 1986661051, 2177026350, 2456956037,
   2730485921, 2820302411, 3259730800, 3345764771, 3516065817,
   3600352804, 4094571909, 275423344, 430227734, 506948616,
   659060556, 883997877, 958139571, 1322822218, 1537002063,
   1747873779, 1955562222, 2024104815, 2227730452, 2361852424,
   2428436474, 2756734187, 3204031479, 3329325298]

/-- The initial SHA-256 hash state. -/
def shaH0 : List Nat :=
  [1779033703,
   3144134277,
   1013904242,
   2773480762,
   1359893119,
   2600822924,
   528734635,
   1541459225]

/-- SHA-256 message padding: append `0x80`, zeros to 56 mod 64, then the
bit length as 8 big-endian bytes. -/
def shaPad (msg : List Nat) : List Nat :=
  let L := msg.length
  msg ++ 128 :: List.replicate ((119 - L % 64) % 64) 0
      ++ (List.range 8).map (fun i => (8 * L / 2 ^ (8 * (7 - i))) % 256)

/-- Split a byte list into 64-byte blocks; `fuel` bounds the recursion and
any `fuel ≥ l.length` yields the full decomposition. -/
def toBlocksAux : Nat → List Nat → List (List Nat)
  | _, [] => []
  | 0, _ :: _ => []
  | fuel + 1, a :: l => (a :: l).take 64 :: toBlocksAux fuel ((a :: l).drop 64)

/-- Split a byte list into 64-byte blocks. -/
def toBlocks (l : List Nat) : List (List Nat) :=
  toBlocksAux l.length l

/-- The 16 initial 32-bit big-endian message-schedule words of a block. -/
def toWords (block : List Nat) : List Nat :=
  (List.range 16).map fun i =>
    block.getD (4 * i) 0 * 16777216 + block.getD (4 * i + 1) 0 * 65536 +
      block.getD (4 * i + 2) 0 * 256 + block.getD (4 * i + 3) 0

/-- Extend the message schedule by `n` further words. -/
def extendSchedule : Nat → List Nat → List Nat
  | 0, ws => ws
  | n + 1, ws =>
    let l := ws.length
    extendSchedule n
      (ws ++ [w32 (smallSig1 (ws.getD (l - 2) 0) + ws.getD (l - 7) 0 +
        smallSig0 (ws.getD (l - 15) 0) + ws.getD (l - 16) 0)])

/-- One SHA-256 compression round on the state `[a,b,c,d,e,f,g,h]`. -/
def shaRound (st : List Nat) (kw : Nat × Nat) : List Nat :=
  match st with
  | [a, b, c, d, e, f, g, h] =>
    let t1 := w32 (h + bigSig1 e + chFn e f g + kw.1 + kw.2)
    let t2 := w32 (bigSig0 a + majFn a b c)
    [w32 (t1 + t2), a, b, c, w32 (d + t1), e, f, g]
  | _ => st

/-- SHA-256 compression of one 64-byte block into the running hash state. -/
def compressBlock (hs : List Nat) (block : List Nat) : List Nat :=
  let ws := extendSchedule 48 (toWords block)
  let st := (shaK.zip ws).foldl shaRound hs
  List.zipWith (fun a b => w32 (a + b)) hs st

/-- The eight 32-bit words of the SHA-256 digest of a byte sequence. -/
def sha256Words (msg : List Nat) : List Nat :=
  (toBlocks (shaPad msg)).foldl compressBlock shaH0

/-- Lowercase hex digit. -/
def hexDigitChar (n : Nat) : Char :=
  if n < 10 then Char.ofNat (48 + n) else Char.ofNat (87 + n)

/-- Eight lowercase hex characters of a 32-bit word. -/
def wordHex (w : Nat) : String :=
  String.mk ((List.range 8).map fun i => hexDigitChar ((w / 2 ^ (4 * (7 - i))) % 16))

/-- The lowercase hex SHA-256 digest of a byte sequence — what Go's
`fmt.Sprintf("%x", sha256.Sum256(content))` produces. -/
def sha256Hex (msg : List Nat) : String :=
  String.join ((sha256Words msg).map wordHex)

/-- `UnifiedStrategy.hashContent`: SHA-256 hex digest of file contents. -/
def hashContent (content : String) : String :=
  sha256Hex (utf8Bytes content)

/-! ## Decimal rendering (Go `fmt.Sprintf("%d", ·)` / `%s-%d` chunk ids) -/

/-- The character of one decimal digit. -/
def decDigitChar : Nat → Char
  | 0 => '0' | 1 => '1' | 2 => '2' | 3 => '3' | 4 => '4'
  | 5 => '5' | 6 => '6' | 7 => '7' | 8 => '8' | _ => '9'

/-- Little-endian decimal digits; the fuel argument only bounds the
recursion and any `fuel ≥ n` yields the digits of `n`. -/
def decDigitsAux : Nat → Nat → List Nat
  | _, 0 => []
  | 0, _ + 1 => []
  | fuel + 1, n + 1 => (n + 1) % 10 :: decDigitsAux fuel ((n + 1) / 10)

/-- Little-endian decimal digits of a natural number. -/
def decDigits (n : Nat) : List Nat := decDigitsAux n n

/-- Decimal rendering of a natural number, as Go's `%d` prints it. -/
def natRepr (n : Nat) : String :=
  if n = 0 then "0" else String.mk ((decDigits n).reverse.map decDigitChar)

/-- Decimal rendering of an integer, as Go's `%d` prints it. -/
def intRepr (i : Int) : String :=
  if i < 0 then "-" ++ natRepr (-i).toNat else natRepr i.toNat

/-! ## Time

Go `time.Time` ↦ `Int` nanoseconds since the epoch; `time.Duration` ↦ `Int`
nanoseconds. `t.Sub(u)` is `t - u`, and `t.Unix()` is the floored second. -/

/-- One second in model time units (nanoseconds, as in Go). -/
def nsPerSec : Int := 1000000000

/-- One minute of Go `time.Duration`. -/
def minuteNs : Int := 60 * nsPerSec

/-- `time.Time.Unix()`: seconds since the epoch, floored. -/
def timeUnix (t : Int) : Int := Int.fdiv t nsPerSec

/-! ## Data model (`internal/chunk/model.go`, `internal/chunk/strategy.go`) -/

/-- `Chunk` (`model.go`): a finalized unit of file changes. -/
structure Chunk where
  id        : String
  filePath  : String
  diff      : String
  startTime : Int
  endTime   : Int
  hash      : String
  manual    : Bool
deriving Repr, DecidableEq

/-- `FileChangeEvent` (`strategy.go`): one file-modification event. -/
structure FileChangeEvent where
  path     : String
  contents : String
  time     : Int
deriving Repr, DecidableEq

/-- `activeChunk` (`unified.go`): the in-progress chunk tracked per path. -/
structure ActiveChunk where
  chunk          : Chunk
  lastUpdate     : Int
  initialHash    : String
  initialContent : String
  latestContent  : String
deriving Repr, DecidableEq

/-! ### Association-list operations standing in for the Go map
`map[string]*activeChunk` (distinct keys; list order = insertion order). -/

/-- Map read `m[k]`. -/
def alookup {α : Type} : List (String × α) → String → Option α
  | [], _ => none
  | (k, v) :: rest, key => if k = key then some v else alookup rest key

/-- Map write `m[k] = v` for a key already present (replace first binding). -/
def aset {α : Type} : List (String × α) → String → α → List (String × α)
  | [], _, _ => []
  | (k, v) :: rest, key, nv =>
    if k = key then (k, nv) :: rest else (k, v) :: aset rest key nv

/-- Map `delete(m, k)` (remove the first binding). -/
def aerase {α : Type} : List (String × α) → String → List (String × α)
  | [], _ => []
  | (k, v) :: rest, key => if k = key then rest else (k, v) :: aerase rest key

/-! ## UnifiedStrategy (`internal/chunk/unified.go`) -/

/-- `DefaultFlushTimeout = 15 * time.Minute`. -/
def DefaultFlushTimeout : Int := 15 * minuteNs

/-- `UnifiedStrategy`: the active-chunk table plus its flush timeout. -/
structure UnifiedStrategy where
  activeChunks : List (String × ActiveChunk)
  flushTimeout : Int
deriving Repr, DecidableEq

/-- `NewUnifiedStrategy()`. -/
def NewUnifiedStrategy : UnifiedStrategy :=
  { activeChunks := [], flushTimeout := DefaultFlushTimeout }

/-- The chunk id `fmt.Sprintf("%s-%d", event.Path, event.Time.Unix())`. -/
def mkChunkID (path : String) (t : Int) : String :=
  path ++ "-" ++ intRepr (timeUnix t)

/-- `UnifiedStrategy.OnFileChange`: create a fresh active chunk for an
untracked path; ignore an event whose content hash equals the tracked
initial hash; otherwise update end time, hash and latest content. -/
def OnFileChange (s : UnifiedStrategy) (event : FileChangeEvent) : UnifiedStrategy :=
  let contentHash := hashContent event.contents
  match alookup s.activeChunks event.path with
  | none =>
    { s with activeChunks := s.activeChunks ++
        [(event.path,
          { chunk :=
              { id := mkChunkID event.path event.time
                filePath := event.path
                diff := ""
                startTime := event.time
                endTime := event.time
                hash := contentHash
                manual := false }
            lastUpdate := event.time
            initialHash := contentHash
            initialContent := event.contents
            latestContent := event.contents })] }
  | some active =>
    if active.initialHash = contentHash then s
    else
      let updated : ActiveChunk :=
        { active with
            chunk := { active.chunk with endTime := event.time, hash := contentHash }
            lastUpdate := event.time
            latestContent := event.contents }
      { s with activeChunks := aset s.activeChunks event.path updated }

/-! ### Diff generation (`generateDiff`, `splitLines`, `computeSimpleDiff`) -/

/-- Accumulator pass of `splitLines`: cut at each newline, keep the final
fragment only when nonempty. -/
def splitLinesAux : List Char → List Char → List String
  | [], acc => if acc.isEmpty then [] else [acc.reverse.asString]
  | c :: rest, acc =>
    if c = '\n' then acc.reverse.asString :: splitLinesAux rest []
    else splitLinesAux rest (c :: acc)

/-- `splitLines`: split text into lines at `\n`; empty text gives no lines
and a trailing fragment without a final newline is kept. -/
def splitLines (text : String) : List String :=
  splitLinesAux text.data []

/-- The common-prefix loop of `computeSimpleDiff`: number of leading lines
equal in both sequences. -/
def prefixLen : List String → List String → Nat
  | a :: as, b :: bs => if a = b then prefixLen as bs + 1 else 0
  | _, _ => 0

/-- The common-suffix loop, on reversed line lists, stopped by the bound
`min (|old| - prefix) (|new| - prefix)` exactly as the Go loop condition. -/
def suffixLenAux : Nat → List String → List String → Nat
  | bound + 1, a :: as, b :: bs => if a = b then suffixLenAux bound as bs + 1 else 0
  | _, _, _ => 0

/-- `computeSimpleDiff`: hunk header, up to 3 leading context lines, the
prefix/suffix-excluded old lines as removals, the prefix/suffix-excluded
new lines as additions, up to 3 trailing context lines. -/
def computeSimpleDiff (oldLines newLines : List String) : String :=
  let lo := oldLines.length
  let ln := newLines.length
  if max lo ln = 0 then ""
  else
    let hunk := "@@ -1," ++ natRepr lo ++ " +1," ++ natRepr ln ++ " @@"
    let cp := prefixLen oldLines newLines
    let cs := suffixLenAux (min (lo - cp) (ln - cp)) oldLines.reverse newLines.reverse
    let contextStart := cp - 3
    let leading := ((oldLines.drop contextStart).take (cp - contextStart)).map (" " ++ ·)
    let removed := ((oldLines.drop cp).take (lo - cs - cp)).map ("-" ++ ·)
    let added := ((newLines.drop cp).take (ln - cs - cp)).map ("+" ++ ·)
    let contextEnd := min lo (lo - cs + 3)
    let trailing := ((oldLines.drop (lo - cs)).take (contextEnd - (lo - cs))).map (" " ++ ·)
    String.intercalate "\n" (hunk :: (leading ++ removed ++ added ++ trailing))

/-- `generateDiff`: git-style header with the 8-character truncated initial
and final hashes, followed by the heuristic line diff. -/
def generateDiff (active : ActiveChunk) : String :=
  let chunk := active.chunk
  let header := "diff --git a/" ++ chunk.filePath ++ " b/" ++ chunk.filePath ++
    "\nindex " ++ active.initialHash.take 8 ++ ".." ++ chunk.hash.take 8 ++
    "\n--- a/" ++ chunk.filePath ++ "\n+++ b/" ++ chunk.filePath ++ "\n"
  header ++ computeSimpleDiff (splitLines active.initialContent) (splitLines active.latestContent)

/-- Finalizing an active chunk at flush time: its chunk with the diff
computed at that moment. -/
def finalizeChunk (active : ActiveChunk) : Chunk :=
  { active.chunk with diff := generateDiff active }

/-- The staleness test of `FlushStaleChunks`: `now.Sub(lastUpdate) >= flushTimeout`. -/
def isStale (now timeout : Int) (active : ActiveChunk) : Bool :=
  timeout ≤ now - active.lastUpdate

/-- `UnifiedStrategy.FlushStaleChunks`: the Go loop finalizes and deletes
every stale entry and keeps the rest, i.e. it partitions the table. -/
def FlushStaleChunks (s : UnifiedStrategy) (now : Int) : UnifiedStrategy × List Chunk :=
  ({ s with activeChunks := s.activeChunks.filter fun pa => !isStale now s.flushTimeout pa.2 },
   (s.activeChunks.filter fun pa => isStale now s.flushTimeout pa.2).map fun pa => finalizeChunk pa.2)

/-- `UnifiedStrategy.FlushAll`: finalize and remove every active chunk. -/
def FlushAll (s : UnifiedStrategy) : UnifiedStrategy × List Chunk :=
  ({ s with activeChunks := [] }, s.activeChunks.map fun pa => finalizeChunk pa.2)

/-- `UnifiedStrategy.ForceFlush`: `nil` for an untracked path; otherwise
mark the chunk manual, finalize it, and delete the table entry. -/
def ForceFlush (s : UnifiedStrategy) (filePath : String) : UnifiedStrategy × Option Chunk :=
  match alookup s.activeChunks filePath with
  | none => (s, none)
  | some active =>
    let marked := { active with chunk := { active.chunk with manual := true } }
    ({ s with activeChunks := aerase s.activeChunks filePath }, some (finalizeChunk marked))

/-! ## Manager (`internal/chunk/manager.go`)

The `ChunkStore` collaborator is modelled as a pure function
`save : Chunk → Option String` (`some msg` = the error `SaveChunk`
returned, `none` = success); the `EventEmitter` and the `log` package are
modelled as event/line traces returned by each step, and the sequence of
`SaveChunk` calls is likewise returned as a trace. -/

/-- An `EventEmitter` notification. -/
inductive EmitEvent where
  | created (c : Chunk)
  | flushed (cs : List Chunk)
deriving Repr, DecidableEq

/-- The observable output of one manager step: emitter notifications, log
lines, and the chunks passed to `Store.SaveChunk` (in call order), each
paired with the result the store returned for it. -/
structure StepOutput where
  emits     : List EmitEvent
  logs      : List String
  saveCalls : List (Chunk × Option String)
deriving Repr, DecidableEq

/-- A step with no observable output. -/
def StepOutput.empty : StepOutput := { emits := [], logs := [], saveCalls := [] }

/-- `Manager`: strategy state plus the adaptive-timer bookkeeping.
`tickerInterval` is the period the ticker is currently set to. -/
structure Manager where
  strat          : UnifiedStrategy
  lastActivity   : Int
  isIdle         : Bool
  tickerInterval : Int
  idleThreshold  : Int
  activeInterval : Int
  idleInterval   : Int
deriving Repr, DecidableEq

/-- `NewManager` at wall-clock time `now`: active mode, 5-minute active
interval and idle threshold, 30-minute idle interval. -/
def NewManager (strat : UnifiedStrategy) (now : Int) : Manager :=
  { strat := strat
    lastActivity := now
    isIdle := false
    tickerInterval := 5 * minuteNs
    idleThreshold := 5 * minuteNs
    activeInterval := 5 * minuteNs
    idleInterval := 30 * minuteNs }

/-- `Manager.switchToActiveMode`: leave idle mode and reset the ticker to
the active interval; no-op when already active. -/
def switchToActiveMode (m : Manager) : Manager :=
  if ¬ m.isIdle then m
  else { m with isIdle := false, tickerInterval := m.activeInterval }

/-- `Manager.switchToIdleMode`: enter idle mode and reset the ticker to
the idle interval; no-op when already idle. -/
def switchToIdleMode (m : Manager) : Manager :=
  if m.isIdle then m
  else { m with isIdle := true, tickerInterval := m.idleInterval }

/-- `Manager.OnFileChange` at wall-clock time `now`: reset the activity
clock, leave idle mode if in it, then forward the event to the strategy. -/
def ManagerOnFileChange (m : Manager) (event : FileChangeEvent) (now : Int) : Manager :=
  let m1 := { m with lastActivity := now }
  let m2 := if m1.isIdle then switchToActiveMode m1 else m1
  { m2 with strat := OnFileChange m2.strat event }

/-- `Manager.flushStaleChunksLocked`: flush stale chunks from the
strategy; attempt to save each one, silently skipping failures; notify
the emitter once with the whole batch when it is nonempty. -/
def flushStaleChunksLocked (save : Chunk → Option String) (m : Manager) (now : Int) :
    Manager × StepOutput :=
  let r := FlushStaleChunks m.strat now
  let chunks := r.2
  if chunks = [] then ({ m with strat := r.1 }, StepOutput.empty)
  else
    ({ m with strat := r.1 },
     { emits := [EmitEvent.flushed chunks]
       logs := []
       saveCalls := chunks.map fun c => (c, save c) })

/-- `Manager.flushAllChunksLocked`: flush every active chunk (the
`UnifiedStrategy` supports `FlushAll`, so the interface assertion in the
Go code succeeds); save each one, silently skipping failures; notify the
emitter once with the whole batch when it is nonempty. -/
def flushAllChunksLocked (save : Chunk → Option String) (m : Manager) :
    Manager × StepOutput :=
  let r := FlushAll m.strat
  let chunks := r.2
  if chunks = [] then ({ m with strat := r.1 }, StepOutput.empty)
  else
    ({ m with strat := r.1 },
     { emits := [EmitEvent.flushed chunks]
       logs := []
       saveCalls := chunks.map fun c => (c, save c) })

/-- One `ticker.C` iteration of `Manager.flushLoop` at wall-clock time
`now`: on an active tick after `idleThreshold` of inactivity, flush all
chunks and then switch to idle mode; on a normal active tick, flush only
stale chunks; when already idle, do nothing. -/
def tick (save : Chunk → Option String) (m : Manager) (now : Int) : Manager × StepOutput :=
  if ¬ m.isIdle ∧ m.idleThreshold ≤ now - m.lastActivity then
    let r := flushAllChunksLocked save m
    (switchToIdleMode r.1, r.2)
  else if ¬ m.isIdle then
    flushStaleChunksLocked save m now
  else
    (m, StepOutput.empty)

/-- `Manager.ForceFlush`: flush one path via the strategy; `nil` result is
a silent no-op; a save error is returned to the caller with no emitter
notification; on success the emitter gets one `created` event. -/
def ManagerForceFlush (save : Chunk → Option String) (m : Manager) (filePath : String) :
    Manager × Option String × StepOutput :=
  match ForceFlush m.strat filePath with
  | (strat1, none) => ({ m with strat := strat1 }, none, StepOutput.empty)
  | (strat1, some c) =>
    match save c with
    | some err =>
      ({ m with strat := strat1 }, some err,
       { emits := [], logs := [], saveCalls := [(c, some err)] })
    | none =>
      ({ m with strat := strat1 }, none,
       { emits := [EmitEvent.created c], logs := [], saveCalls := [(c, none)] })

/-! ## Watcher ignore rules (`internal/watcher/watcher.go`)

`Watcher.matchesRule` calls Go's `path/filepath.Match`. `globMatchAux`
below implements `filepath.Match`'s semantics for patterns built from
literal characters, `*` (any sequence of non-separator characters) and
`?` (any single non-separator character); character classes (`[...]`)
and backslash escapes are outside the fragment modelled here, and the
theorems about wildcard rules restrict to this fragment. -/

/-- Recursive glob matcher; the fuel argument only bounds recursion and
`pattern.length + name.length` always suffices. -/
def globMatchAux : Nat → List Char → List Char → Bool
  | 0, _, _ => false
  | _ + 1, [], name => name.isEmpty
  | fuel + 1, '*' :: p, name =>
    globMatchAux fuel p name ||
      (match name with
       | [] => false
       | c :: rest => decide (c ≠ '/') && globMatchAux fuel ('*' :: p) rest)
  | fuel + 1, '?' :: p, c :: rest => decide (c ≠ '/') && globMatchAux fuel p rest
  | _ + 1, '?' :: _, [] => false
  | fuel + 1, c :: p, d :: rest => decide (c = d) && globMatchAux fuel p rest
  | _ + 1, _ :: _, [] => false

/-- `filepath.Match pattern name` (on the class-free, escape-free pattern
fragment): `*` and `?` never match the path separator. -/
def filepathMatch (pattern name : String) : Bool :=
  globMatchAux (pattern.length + name.length + 1) pattern.data name.data

/-- Go `strings.HasSuffix(s, "/")`: the last character is the separator. -/
def endsWithSlash (s : String) : Bool := s.data.getLast? = some '/'

/-- Go `strings.TrimSuffix(s, "/")` on a string that ends in `/`. -/
def trimSlash (s : String) : String := String.mk s.data.dropLast

/-- Go `strings.Split(s, "/")`: accumulator pass; the final field is
always emitted, even when empty. -/
def splitOnSlashAux : List Char → List Char → List String
  | [], acc => [String.mk acc.reverse]
  | c :: rest, acc =>
    if c = '/' then String.mk acc.reverse :: splitOnSlashAux rest []
    else splitOnSlashAux rest (c :: acc)

/-- Go `strings.Split(s, "/")`. -/
def splitOnSlash (s : String) : List String := splitOnSlashAux s.data []

/-- `Watcher.matchesRule` after the directory-suffix handling: a glob (or
exact) match of the rule against the whole relative path, else literal
containment of the rule among the path's segments. -/
def matchesRuleCore (path rule : String) : Bool :=
  filepathMatch rule path || (splitOnSlash path).contains rule

/-- `Watcher.matchesRule`: a rule ending in `/` applies only to
directories and is stripped of the slash; then `matchesRuleCore`. -/
def matchesRule (path rule : String) (isDir : Bool) : Bool :=
  if endsWithSlash rule then
    if !isDir then false else matchesRuleCore path (trimSlash rule)
  else matchesRuleCore path rule

/-- `Watcher.shouldIgnore` on an already-relativized path: true when any
loaded rule matches. -/
def shouldIgnore (rules : List String) (relPath : String) (isDir : Bool) : Bool :=
  rules.any fun rule => matchesRule relPath rule isDir

/-- A rule contains glob wildcard characters. -/
def hasWildcard (rule : String) : Bool :=
  rule.data.any fun c => c = '*' || c = '?' || c = '['

/-- The base names of the ancestor directories of a relative path: every
path segment except the last. -/
def ancestorBaseNames (path : String) : List String :=
  (splitOnSlash path).dropLast

/-- Modelled from the spec (§4.1), for comparison with `matchesRule`: a
wildcard rule is glob-matched against the full relative path and, failing
that, glob-matched against each ancestor directory's base name; a plain
rule matches by path equality or exact segment containment. -/
def matchesRuleSpec (path rule : String) (isDir : Bool) : Bool :=
  if endsWithSlash rule then
    if !isDir then false else matchesRuleSpecCore path (trimSlash rule)
  else matchesRuleSpecCore path rule
where
  /-- The wildcard/plain dispatch described by the spec. -/
  matchesRuleSpecCore (path rule : String) : Bool :=
    if hasWildcard rule then
      filepathMatch rule path || (ancestorBaseNames path).any fun b => filepathMatch rule b
    else
      path = rule || (splitOnSlash path).contains rule

/-! ## Spec-side diff description (for the §4.4 refinement comparison) -/

/-- Modelled from the spec (§4.4), for comparison with `computeSimpleDiff`:
a single hunk marker stating the original and new line counts, up to 3
lines of leading context (the last common-prefix lines), all
prefix/suffix-excluded `initial` lines marked removed, all
prefix/suffix-excluded `latest` lines marked added, and up to 3 lines of
trailing context (the first common-suffix lines) — emitted
unconditionally, with no empty-input guard. -/
def specDiffBody (oldLines newLines : List String) : String :=
  let lo := oldLines.length
  let ln := newLines.length
  let cp := prefixLen oldLines newLines
  let cs := suffixLenAux (min (lo - cp) (ln - cp)) oldLines.reverse newLines.reverse
  let hunk := "@@ -1," ++ natRepr lo ++ " +1," ++ natRepr ln ++ " @@"
  let leading := ((oldLines.take cp).drop (cp - 3)).map (" " ++ ·)
  let removed := ((oldLines.take (lo - cs)).drop cp).map ("-" ++ ·)
  let added := ((newLines.take (ln - cs)).drop cp).map ("+" ++ ·)
  let trailing := ((oldLines.drop (lo - cs)).take 3).map (" " ++ ·)
  String.intercalate "\n" (hunk :: (leading ++ removed ++ added ++ trailing))

/-- Modelled from the spec (§4.4), for comparison with `generateDiff`:
header naming the file path and the truncated 8-character initial/final
hashes, then the hunk and line sections of `specDiffBody`. -/
def specGenerateDiff (active : ActiveChunk) : String :=
  let chunk := active.chunk
  let header := "diff --git a/" ++ chunk.filePath ++ " b/" ++ chunk.filePath ++
    "\nindex " ++ active.initialHash.take 8 ++ ".." ++ chunk.hash.take 8 ++
    "\n--- a/" ++ chunk.filePath ++ "\n+++ b/" ++ chunk.filePath ++ "\n"
  header ++ specDiffBody (splitLines active.initialContent) (splitLines active.latestContent)

/-! ## Association-list lemmas -/

theorem alookup_eq_none_iff {α : Type} (l : List (String × α)) (k : String) :
    alookup l k = none ↔ ∀ pa ∈ l, pa.1 ≠ k := by
  induction l with
  | nil => simp [alookup]
  | cons hd tl ih =>
    obtain ⟨k', v⟩ := hd
    by_cases h : k' = k <;> simp [alookup, h, ih]

theorem alookup_eq_some_mem {α : Type} {l : List (String × α)} {k : String} {v : α}
    (h : alookup l k = some v) : (k, v) ∈ l := by
  induction l with
  | nil => simp [alookup] at h
  | cons hd tl ih =>
    obtain ⟨k', v'⟩ := hd
    by_cases hk : k' = k
    · subst hk
      simp [alookup] at h
      simp [h]
    · simp [alookup, hk] at h
      exact List.mem_cons_of_mem _ (ih h)

theorem aset_map_fst {α : Type} (l : List (String × α)) (k : String) (v : α) :
    (aset l k v).map Prod.fst = l.map Prod.fst := by
  induction l with
  | nil => rfl
  | cons hd tl ih =>
    obtain ⟨k', v'⟩ := hd
    by_cases h : k' = k <;> simp [aset, h, ih]

theorem mem_aset {α : Type} {l : List (String × α)} {k : String} {v : α} :
    ∀ pa ∈ aset l k v, (pa.1 = k ∧ pa.2 = v) ∨ pa ∈ l := by
  induction l with
  | nil => simp [aset]
  | cons hd tl ih =>
    obtain ⟨k', v'⟩ := hd
    by_cases h : k' = k
    · subst h
      intro pa hpa
      simp [aset] at hpa
      rcases hpa with h1 | h2
      · subst h1; exact Or.inl ⟨rfl, rfl⟩
      · exact Or.inr (List.mem_cons_of_mem _ h2)
    · intro pa hpa
      simp [aset, h] at hpa
      rcases hpa with h1 | h2
      · subst h1; exact Or.inr (List.mem_cons_self _ _)
      · rcases ih pa h2 with h3 | h4
        · exact Or.inl h3
        · exact Or.inr (List.mem_cons_of_mem _ h4)

theorem alookup_eq_none_of_forall {α : Type} {l : List (String × α)} {k : String}
    (h : ∀ pa ∈ l, pa.1 ≠ k) : alookup l k = none :=
  (alookup_eq_none_iff l k).mpr h

theorem alookup_aerase_self {α : Type} {l : List (String × α)} {k : String}
    (hnd : (l.map Prod.fst).Nodup) : alookup (aerase l k) k = none := by
  induction l with
  | nil => rfl
  | cons hd tl ih =>
    obtain ⟨k', v⟩ := hd
    simp only [List.map_cons, List.nodup_cons] at hnd
    by_cases h : k' = k
    · subst h
      simp only [aerase, if_pos rfl]
      apply alookup_eq_none_of_forall
      intro pa hpa hk
      exact hnd.1 (hk ▸ List.mem_map_of_mem Prod.fst hpa)
    · simp only [aerase, if_neg h, alookup, if_neg h]
      exact ih hnd.2

/-! ## C1: same-initial-hash events are no-ops -/

/-- C1: For every `OnFileChange` event whose path already has an
`ActiveChunk` and whose contents hash to that chunk's tracked initial
hash, the call is a no-op: the active-chunk table and all fields of the
existing `ActiveChunk` (start/end times, hash, latest bytes) are
unchanged — and an entire sequence of such events still leaves the
strategy state unchanged, so no chunk is ever produced from them until
the content hash actually diverges from the initial hash. -/
theorem onFileChange_initialHash_noop (s : UnifiedStrategy) (es : List FileChangeEvent)
    (h : ∀ e ∈ es, ∃ a, alookup s.activeChunks e.path = some a ∧
      hashContent e.contents = a.initialHash) :
    es.foldl OnFileChange s = s := by
  induction es with
  | nil => rfl
  | cons e rest ih =>
    obtain ⟨a, hl, hh⟩ := h e (List.mem_cons_self _ _)
    have hstep : OnFileChange s e = s := by
      simp [OnFileChange, hl, hh.symm]
    rw [List.foldl_cons, hstep]
    exact ih fun e' he' => h e' (List.mem_cons_of_mem _ he')

/-- Witness for C1: after starting to track `a.txt` with contents `"x"`,
a later event with identical contents leaves the state unchanged. -/
theorem onFileChange_initialHash_noop_witness :
    [({ path := "a.txt", contents := "x", time := nsPerSec } : FileChangeEvent)].foldl OnFileChange
        (OnFileChange NewUnifiedStrategy { path := "a.txt", contents := "x", time := 0 }) =
      OnFileChange NewUnifiedStrategy { path := "a.txt", contents := "x", time := 0 } := by
  apply onFileChange_initialHash_noop
  intro e he
  simp only [List.mem_singleton] at he
  subst he
  exact ⟨⟨⟨mkChunkID "a.txt" 0, "a.txt", "", 0, 0, hashContent "x", false⟩,
    0, hashContent "x", "x", "x"⟩, rfl, rfl⟩

/-! ## C4: FlushStaleChunks flushes exactly the stale entries, idempotently -/

/-- C4: `FlushStaleChunks now` returns, with the diff computed at that
moment, exactly the active chunks whose `lastUpdate` is at least
`flushTimeout` (by default 15 minutes) before `now`, removes exactly
those from the table, and a second call with the same `now` and no
intervening `OnFileChange` returns an empty batch. -/
theorem flushStaleChunks_exact_idempotent (s : UnifiedStrategy) (now : Int) :
    (FlushStaleChunks s now).2 =
      (s.activeChunks.filter fun pa => isStale now s.flushTimeout pa.2).map
        (fun pa => finalizeChunk pa.2) ∧
    (FlushStaleChunks s now).1.activeChunks =
      s.activeChunks.filter (fun pa => !isStale now s.flushTimeout pa.2) ∧
    NewUnifiedStrategy.flushTimeout = 15 * minuteNs ∧
    (FlushStaleChunks (FlushStaleChunks s now).1 now).2 = [] := by
  refine ⟨rfl, rfl, rfl, ?_⟩
  show (((s.activeChunks.filter fun pa => !isStale now s.flushTimeout pa.2).filter
      fun pa => isStale now s.flushTimeout pa.2).map fun pa => finalizeChunk pa.2) = []
  rw [List.filter_filter]
  simp only [Bool.and_not_self, Bool.not_and_self, List.filter_false, List.map_nil]

/-! ## C5: table invariant after every OnFileChange -/

/-- The C5 invariant on the strategy state: at most one active chunk per
path, and for every entry `endTime ≥ startTime` and
`lastUpdate = endTime`. -/
abbrev ChunkInv (s : UnifiedStrategy) : Prop :=
  (s.activeChunks.map Prod.fst).Nodup ∧
  ∀ pa ∈ s.activeChunks,
    pa.2.chunk.startTime ≤ pa.2.chunk.endTime ∧ pa.2.lastUpdate = pa.2.chunk.endTime

/-- C5: `OnFileChange` preserves the invariant: afterwards every
`ActiveChunk` satisfies `endTime ≥ startTime` and
`lastUpdate = endTime`, and the table has at most one entry per path.
The event's wall-clock time is at least every tracked `lastUpdate`, as
events carry `time.Now()`. -/
theorem onFileChange_preserves_inv (s : UnifiedStrategy) (e : FileChangeEvent)
    (hinv : ChunkInv s)
    (hclock : ∀ pa ∈ s.activeChunks, pa.2.lastUpdate ≤ e.time) :
    ChunkInv (OnFileChange s e) := by
  obtain ⟨hnd, hbounds⟩ := hinv
  cases hl : alookup s.activeChunks e.path with
  | none =>
    have hnotin : e.path ∉ s.activeChunks.map Prod.fst := by
      intro hmem
      obtain ⟨pa, hpa, hfst⟩ := List.mem_map.mp hmem
      exact (alookup_eq_none_iff _ _).mp hl pa hpa hfst
    constructor
    · simp only [OnFileChange, hl, List.map_append, List.map_cons, List.map_nil]
      simp [List.nodup_append, hnd, hnotin]
    · simp only [OnFileChange, hl]
      intro pa hpa
      rcases List.mem_append.mp hpa with hmem | hmem
      · exact hbounds pa hmem
      · simp only [List.mem_singleton] at hmem
        subst hmem
        exact ⟨le_refl _, rfl⟩
  | some a =>
    by_cases hh : a.initialHash = hashContent e.contents
    · simpa [OnFileChange, hl, hh] using ⟨hnd, hbounds⟩
    · have hmem := alookup_eq_some_mem hl
      have ha := hbounds _ hmem
      have hcl := hclock _ hmem
      constructor
      · simp only [OnFileChange, hl, if_neg hh, aset_map_fst]
        exact hnd
      · simp only [OnFileChange, hl, if_neg hh]
        intro pa hpa
        rcases mem_aset pa hpa with ⟨hfst, hsnd⟩ | hmem'
        · rw [hsnd]
          refine ⟨?_, rfl⟩
          calc a.chunk.startTime ≤ a.chunk.endTime := ha.1
            _ = a.lastUpdate := ha.2.symm
            _ ≤ e.time := hcl
        · exact hbounds pa hmem'

/-- Witness for C5: the invariant holds after tracking `a.txt` and then
updating it with different contents one second later. -/
theorem onFileChange_preserves_inv_witness :
    ChunkInv (OnFileChange (OnFileChange NewUnifiedStrategy
      { path := "a.txt", contents := "x", time := 0 })
      { path := "a.txt", contents := "y", time := nsPerSec }) :=
  onFileChange_preserves_inv _ _ (by decide) (by decide)

/-! ## Decimal-rendering injectivity (chunk-id freshness) -/

theorem decDigitsAux_eq_digits : ∀ fuel n, n ≤ fuel → decDigitsAux fuel n = Nat.digits 10 n := by
  intro fuel
  induction fuel with
  | zero =>
    intro n hn
    interval_cases n
    rw [Nat.digits_zero]
    rfl
  | succ f ih =>
    intro n hn
    cases n with
    | zero => rw [Nat.digits_zero]; rfl
    | succ m =>
      rw [decDigitsAux, Nat.digits_def' (b := 10) (by norm_num) (Nat.succ_pos m)]
      congr 1
      exact ih _ (by omega)

theorem decDigits_eq_digits (n : Nat) : decDigits n = Nat.digits 10 n :=
  decDigitsAux_eq_digits n n le_rfl

theorem decDigitChar_inj {d1 d2 : Nat} (h1 : d1 < 10) (h2 : d2 < 10)
    (h : decDigitChar d1 = decDigitChar d2) : d1 = d2 := by
  interval_cases d1 <;> interval_cases d2 <;> revert h <;> decide

theorem decDigitChar_ne_dash : ∀ d : Nat, decDigitChar d ≠ '-'
  | 0 => by decide
  | 1 => by decide
  | 2 => by decide
  | 3 => by decide
  | 4 => by decide
  | 5 => by decide
  | 6 => by decide
  | 7 => by decide
  | 8 => by decide
  | n + 9 => fun hcon => absurd hcon (by decide : ('9' : Char) ≠ '-')

theorem map_decDigitChar_inj : ∀ {l1 l2 : List Nat}, (∀ x ∈ l1, x < 10) →
    (∀ x ∈ l2, x < 10) → l1.map decDigitChar = l2.map decDigitChar → l1 = l2 := by
  intro l1
  induction l1 with
  | nil =>
    intro l2 _ _ h
    cases l2 with
    | nil => rfl
    | cons b bs => simp at h
  | cons a as ih =>
    intro l2 h1 h2 h
    cases l2 with
    | nil => simp at h
    | cons b bs =>
      simp only [List.map_cons, List.cons.injEq] at h
      have hab : a = b :=
        decDigitChar_inj (h1 a (List.mem_cons_self _ _)) (h2 b (List.mem_cons_self _ _)) h.1
      have htl : as = bs :=
        ih (fun x hx => h1 x (List.mem_cons_of_mem _ hx))
          (fun x hx => h2 x (List.mem_cons_of_mem _ hx)) h.2
      rw [hab, htl]

theorem dash_not_mem_natRepr (n : Nat) : '-' ∉ (natRepr n).data := by
  unfold natRepr
  by_cases h : n = 0
  · simp [h]
  · simp only [h, if_neg, ite_false]
    intro hmem
    obtain ⟨d, _, hd⟩ := List.mem_map.mp hmem
    exact decDigitChar_ne_dash d hd

theorem natRepr_injective : Function.Injective natRepr := by
  intro a b h
  by_cases ha : a = 0 <;> by_cases hb : b = 0
  · rw [ha, hb]
  · exfalso
    have hd := congrArg String.data h
    rw [natRepr, natRepr, if_pos ha, if_neg hb, decDigits_eq_digits] at hd
    have : '-' ∉ (natRepr b).data := dash_not_mem_natRepr b
    -- instead derive a contradiction from the digit list having last digit 0
    have hmap : (Nat.digits 10 b).reverse.map decDigitChar = ['0'] := hd.symm
    have hlen : (Nat.digits 10 b).reverse.length = 1 := by
      have := congrArg List.length hmap
      simpa using this
    obtain ⟨d, hds⟩ : ∃ d, (Nat.digits 10 b).reverse = [d] := by
      cases hrev : (Nat.digits 10 b).reverse with
      | nil => rw [hrev] at hlen; simp at hlen
      | cons x xs =>
        rw [hrev] at hlen
        simp at hlen
        exact ⟨x, by rw [hlen]⟩
    have hdigs : Nat.digits 10 b = [d] := by
      have := congrArg List.reverse hds
      simpa using this
    have hd0 : decDigitChar d = '0' := by
      rw [hds] at hmap
      simpa using hmap
    have hdlt : d < 10 := Nat.digits_lt_base (by norm_num) (hdigs ▸ List.mem_singleton_self d)
    have : d = 0 := decDigitChar_inj hdlt (by norm_num) (by rw [hd0]; rfl)
    have hne := Nat.getLast_digit_ne_zero 10 hb
    simp only [hdigs, List.getLast_singleton] at hne
    exact hne this
  · exfalso
    have hd := congrArg String.data h
    rw [natRepr, natRepr, if_neg ha, if_pos hb, decDigits_eq_digits] at hd
    have hmap : (Nat.digits 10 a).reverse.map decDigitChar = ['0'] := hd
    have hlen : (Nat.digits 10 a).reverse.length = 1 := by
      have := congrArg List.length hmap
      simpa using this
    obtain ⟨d, hds⟩ : ∃ d, (Nat.digits 10 a).reverse = [d] := by
      cases hrev : (Nat.digits 10 a).reverse with
      | nil => rw [hrev] at hlen; simp at hlen
      | cons x xs =>
        rw [hrev] at hlen
        simp at hlen
        exact ⟨x, by rw [hlen]⟩
    have hdigs : Nat.digits 10 a = [d] := by
      have := congrArg List.reverse hds
      simpa using this
    have hd0 : decDigitChar d = '0' := by
      rw [hds] at hmap
      simpa using hmap
    have hdlt : d < 10 := Nat.digits_lt_base (by norm_num) (hdigs ▸ List.mem_singleton_self d)
    have : d = 0 := decDigitChar_inj hdlt (by norm_num) (by rw [hd0]; rfl)
    have hne := Nat.getLast_digit_ne_zero 10 ha
    simp only [hdigs, List.getLast_singleton] at hne
    exact hne this
  · have hd := congrArg String.data h
    rw [natRepr, natRepr, if_neg ha, if_neg hb, decDigits_eq_digits, decDigits_eq_digits] at hd
    have hmap : (Nat.digits 10 a).reverse.map decDigitChar =
        (Nat.digits 10 b).reverse.map decDigitChar := hd
    have hrev : (Nat.digits 10 a).reverse = (Nat.digits 10 b).reverse :=
      map_decDigitChar_inj
        (fun x hx => Nat.digits_lt_base (by norm_num) (List.mem_reverse.mp hx))
        (fun x hx => Nat.digits_lt_base (by norm_num) (List.mem_reverse.mp hx)) hmap
    have hdig : Nat.digits 10 a = Nat.digits 10 b := List.reverse_inj.mp hrev
    calc a = Nat.ofDigits 10 (Nat.digits 10 a) := (Nat.ofDigits_digits 10 a).symm
      _ = Nat.ofDigits 10 (Nat.digits 10 b) := by rw [hdig]
      _ = b := Nat.ofDigits_digits 10 b

theorem intRepr_injective : Function.Injective intRepr := by
  intro a b h
  unfold intRepr at h
  by_cases ha : a < 0 <;> by_cases hb : b < 0
  · rw [if_pos ha, if_pos hb] at h
    have hd := congrArg String.data h
    rw [String.data_append, String.data_append] at hd
    have hn : natRepr (-a).toNat = natRepr (-b).toNat :=
      String.ext (List.append_cancel_left hd)
    have := natRepr_injective hn
    omega
  · exfalso
    rw [if_pos ha, if_neg hb] at h
    have hd := congrArg String.data h
    rw [String.data_append] at hd
    have : '-' ∈ (natRepr b.toNat).data := by
      rw [← hd]
      exact List.mem_append_left _ (by decide)
    exact dash_not_mem_natRepr _ this
  · exfalso
    rw [if_neg ha, if_pos hb] at h
    have hd := congrArg String.data h
    rw [String.data_append] at hd
    have : '-' ∈ (natRepr a.toNat).data := by
      rw [hd]
      exact List.mem_append_left _ (by decide)
    exact dash_not_mem_natRepr _ this
  · rw [if_neg ha, if_neg hb] at h
    have := natRepr_injective h
    omega

theorem mkChunkID_ne_of_unix_ne (p : String) {t1 t2 : Int}
    (h : timeUnix t1 ≠ timeUnix t2) : mkChunkID p t1 ≠ mkChunkID p t2 := by
  intro he
  apply h
  unfold mkChunkID at he
  have hd := congrArg String.data he
  rw [String.data_append, String.data_append] at hd
  have : intRepr (timeUnix t1) = intRepr (timeUnix t2) :=
    String.ext (List.append_cancel_left hd)
  exact intRepr_injective this

theorem alookup_append_not_left {α : Type} {l1 : List (String × α)} {k : String}
    (h : alookup l1 k = none) (l2 : List (String × α)) :
    alookup (l1 ++ l2) k = alookup l2 k := by
  induction l1 with
  | nil => rfl
  | cons hd tl ih =>
    obtain ⟨k', v⟩ := hd
    by_cases hk : k' = k
    · simp [alookup, hk] at h
    · simp only [alookup, if_neg hk] at h ⊢
      exact ih h

/-! ## C3: scenario B — two changes then a forced flush -/

set_option maxRecDepth 40000 in
/-- C3: `onChange("a.txt","v1")` at `t0`, `onChange("a.txt","v2")` at
`t0+1s`, then `forceFlush("a.txt")` (the strategy's forced flush takes no
timestamp, so its result at `t0+2s` is exactly this) produce exactly one
chunk — the table is empty afterwards — with `startTime = t0`,
`endTime = t0+1s`, `manual = true`, and a diff showing line `v1` removed
and line `v2` added. -/
theorem scenarioB_single_manual_chunk :
    ForceFlush (OnFileChange (OnFileChange NewUnifiedStrategy
        { path := "a.txt", contents := "v1", time := 1700000000 * nsPerSec })
        { path := "a.txt", contents := "v2", time := 1700000000 * nsPerSec + nsPerSec })
      "a.txt" =
    ({ activeChunks := [], flushTimeout := DefaultFlushTimeout },
     some
       { id := "a.txt-1700000000"
         filePath := "a.txt"
         diff := "diff --git a/a.txt b/a.txt\nindex 3bfc2695..fb04dcb6\n--- a/a.txt\n+++ b/a.txt\n@@ -1,1 +1,1 @@\n-v1\n+v2"
         startTime := 1700000000 * nsPerSec
         endTime := 1700000000 * nsPerSec + nsPerSec
         hash := "fb04dcb6970e4c3d1873de51fd5a50d7bb46b3383113602665c350ec40b5f990"
         manual := true }) := by
  decide

/-! ## C9: id freshness after a flush -/

/-- C9 amended: After a chunk for path `P` is flushed, the path has
no table entry, so the next `OnFileChange` for `P` creates a new
`ActiveChunk`; its id differs from the flushed chunk's id `P-t1`
whenever the new event's time falls in a different Unix second than the
flushed chunk's start time (ids have second granularity, so a change
within the same second reuses the id — see the counterexample). -/
theorem flushed_then_change_fresh_id (s : UnifiedStrategy) (e : FileChangeEvent)
    (c : Chunk) (t1 : Int)
    (hflushed : alookup s.activeChunks e.path = none)
    (hid : c.id = mkChunkID e.path t1)
    (hsec : timeUnix e.time ≠ timeUnix t1) :
    (alookup (OnFileChange s e).activeChunks e.path).map (fun a => a.chunk.id) =
      some (mkChunkID e.path e.time) ∧
    mkChunkID e.path e.time ≠ c.id := by
  constructor
  · simp only [OnFileChange, hflushed]
    rw [alookup_append_not_left hflushed]
    simp [alookup]
  · rw [hid]
    exact mkChunkID_ne_of_unix_ne _ hsec

/-- Witness for C9: with no active entry for `a.txt` and a flushed chunk
id from second 0, a change at second 1 creates a fresh, different id. -/
theorem flushed_then_change_fresh_id_witness :
    (alookup (OnFileChange NewUnifiedStrategy
        { path := "a.txt", contents := "v2", time := nsPerSec }).activeChunks
      "a.txt").map (fun a => a.chunk.id) = some (mkChunkID "a.txt" nsPerSec) ∧
    mkChunkID "a.txt" nsPerSec ≠ "a.txt-0" :=
  flushed_then_change_fresh_id NewUnifiedStrategy
    { path := "a.txt", contents := "v2", time := nsPerSec }
    ⟨"a.txt-0", "a.txt", "", 0, 0, "", false⟩ 0 rfl (by decide) (by decide)

set_option maxRecDepth 40000 in
/-- Counterexample for C9 as stated: after a forced flush of `a.txt`
(tracked since Unix second 1700000000), a change one nanosecond later —
the same Unix second — creates a new `ActiveChunk` whose id equals the
flushed chunk's id `a.txt-1700000000`. -/
theorem forceFlush_sameSecond_id_reused :
    (ForceFlush (OnFileChange NewUnifiedStrategy
        { path := "a.txt", contents := "v1", time := 1700000000 * nsPerSec })
      "a.txt").2.map Chunk.id = some "a.txt-1700000000" ∧
    (alookup (OnFileChange
        (ForceFlush (OnFileChange NewUnifiedStrategy
            { path := "a.txt", contents := "v1", time := 1700000000 * nsPerSec })
          "a.txt").1
        { path := "a.txt", contents := "v2", time := 1700000000 * nsPerSec + 1 }).activeChunks
      "a.txt").map (fun a => a.chunk.id) = some "a.txt-1700000000" := by
  decide

/-! ## C2: manager active/idle lifecycle -/

theorem flushAllChunksLocked_state (save : Chunk → Option String) (m : Manager) :
    (flushAllChunksLocked save m).1 = { m with strat := (FlushAll m.strat).1 } ∧
    (flushAllChunksLocked save m).2.saveCalls.map Prod.fst = (FlushAll m.strat).2 := by
  simp only [flushAllChunksLocked]
  by_cases hc : (FlushAll m.strat).2 = []
  · rw [if_pos hc]
    exact ⟨rfl, by simp [StepOutput.empty, hc]⟩
  · rw [if_neg hc]
    refine ⟨rfl, ?_⟩
    rw [List.map_map]
    have hfun : (Prod.fst ∘ fun c : Chunk => (c, save c)) = id := rfl
    rw [hfun, List.map_id]

theorem switchToIdleMode_of_active {m : Manager} (h : m.isIdle = false) :
    switchToIdleMode m = { m with isIdle := true, tickerInterval := m.idleInterval } := by
  rw [switchToIdleMode, if_neg (by simp [h])]

/-- C2: When a tick fires while Active with no change for at least
`idleThreshold` (5 minutes by default, per `NewManager`), the manager
flushes all active chunks — the table is empty afterwards and the saved
batch is `FlushAll`'s batch, not merely the stale one — and only then is
the timer switched to `idleInterval` (30 minutes by default); and every
`OnFileChange` received while Idle immediately resets the activity clock
and switches back to Active with period `activeInterval`, in the handler
itself, without waiting for a tick. -/
theorem manager_idle_lifecycle (save : Chunk → Option String) (m : Manager)
    (now : Int) (e : FileChangeEvent) :
    (m.isIdle = false → m.idleThreshold ≤ now - m.lastActivity →
      (tick save m now).1.isIdle = true ∧
      (tick save m now).1.tickerInterval = m.idleInterval ∧
      (tick save m now).1.strat.activeChunks = [] ∧
      (tick save m now).2.saveCalls.map Prod.fst = (FlushAll m.strat).2) ∧
    (m.isIdle = true →
      ManagerOnFileChange m e now =
        { m with lastActivity := now, isIdle := false,
                 tickerInterval := m.activeInterval, strat := OnFileChange m.strat e }) ∧
    (NewManager m.strat now).idleThreshold = 5 * minuteNs ∧
    (NewManager m.strat now).idleInterval = 30 * minuteNs := by
  refine ⟨?_, ?_, rfl, rfl⟩
  · intro h1 h2
    have hcond : ¬ m.isIdle = true ∧ m.idleThreshold ≤ now - m.lastActivity :=
      ⟨by simp [h1], h2⟩
    obtain ⟨hst, hcalls⟩ := flushAllChunksLocked_state save m
    have hact : (flushAllChunksLocked save m).1.isIdle = false := by
      rw [hst]; exact h1
    have hswIdle : (switchToIdleMode (flushAllChunksLocked save m).1).isIdle = true := by
      rw [switchToIdleMode_of_active hact]
    have hswInt : (switchToIdleMode (flushAllChunksLocked save m).1).tickerInterval =
        m.idleInterval := by
      rw [switchToIdleMode_of_active hact]
      show (flushAllChunksLocked save m).1.idleInterval = m.idleInterval
      rw [hst]
    have hswStrat : (switchToIdleMode (flushAllChunksLocked save m).1).strat.activeChunks = [] := by
      rw [switchToIdleMode_of_active hact]
      show (flushAllChunksLocked save m).1.strat.activeChunks = []
      rw [hst]
      rfl
    simp only [tick, if_pos hcond]
    exact ⟨hswIdle, hswInt, hswStrat, hcalls⟩
  · intro h
    simp [ManagerOnFileChange, switchToActiveMode, h]

/-- Witness for C2: (a) a tick at exactly the idle threshold flushes the
single tracked chunk and enters idle mode at the 30-minute period;
(b) an `OnFileChange` on an idle manager returns to active mode with the
5-minute period at once. -/
theorem manager_idle_lifecycle_witness :
    ((tick (fun _ => none)
        (NewManager (OnFileChange NewUnifiedStrategy
          { path := "a.txt", contents := "v1", time := 0 }) 0)
        (5 * minuteNs)).1.isIdle = true ∧
      (tick (fun _ => none)
        (NewManager (OnFileChange NewUnifiedStrategy
          { path := "a.txt", contents := "v1", time := 0 }) 0)
        (5 * minuteNs)).1.tickerInterval = 30 * minuteNs ∧
      (tick (fun _ => none)
        (NewManager (OnFileChange NewUnifiedStrategy
          { path := "a.txt", contents := "v1", time := 0 }) 0)
        (5 * minuteNs)).1.strat.activeChunks = [] ∧
      (tick (fun _ => none)
        (NewManager (OnFileChange NewUnifiedStrategy
          { path := "a.txt", contents := "v1", time := 0 }) 0)
        (5 * minuteNs)).2.saveCalls.map Prod.fst =
        (FlushAll (OnFileChange NewUnifiedStrategy
          { path := "a.txt", contents := "v1", time := 0 })).2) ∧
    ManagerOnFileChange
      { strat := NewUnifiedStrategy, lastActivity := 0, isIdle := true,
        tickerInterval := 30 * minuteNs, idleThreshold := 5 * minuteNs,
        activeInterval := 5 * minuteNs, idleInterval := 30 * minuteNs }
      { path := "b.txt", contents := "v1", time := minuteNs } minuteNs =
      { strat := OnFileChange NewUnifiedStrategy
          { path := "b.txt", contents := "v1", time := minuteNs },
        lastActivity := minuteNs, isIdle := false,
        tickerInterval := 5 * minuteNs, idleThreshold := 5 * minuteNs,
        activeInterval := 5 * minuteNs, idleInterval := 30 * minuteNs } :=
  ⟨(manager_idle_lifecycle (fun _ => none)
      (NewManager (OnFileChange NewUnifiedStrategy
        { path := "a.txt", contents := "v1", time := 0 }) 0)
      (5 * minuteNs) { path := "a.txt", contents := "v1", time := 0 }).1
      rfl (by decide),
   (manager_idle_lifecycle (fun _ => none)
      { strat := NewUnifiedStrategy, lastActivity := 0, isIdle := true,
        tickerInterval := 30 * minuteNs, idleThreshold := 5 * minuteNs,
        activeInterval := 5 * minuteNs, idleInterval := 30 * minuteNs }
      minuteNs { path := "b.txt", contents := "v1", time := minuteNs }).2.1 rfl⟩

/-! ## C10: forced flush is not atomic w.r.t. a persistence failure -/

/-- C10: If `Manager.ForceFlush` obtains a chunk from the strategy
and the store's save errors, the error is returned and no emitter
notification is made, but the path's entry has already left the
strategy's table — the chunk content is lost, and an immediately
repeated `ForceFlush` with no intervening change is a silent no-op. -/
theorem managerForceFlush_save_error (save : Chunk → Option String) (m : Manager)
    (p : String) (a : ActiveChunk) (err : String)
    (hnd : (m.strat.activeChunks.map Prod.fst).Nodup)
    (ha : alookup m.strat.activeChunks p = some a)
    (hsave : save (finalizeChunk { a with chunk := { a.chunk with manual := true } }) = some err) :
    (ManagerForceFlush save m p).2.1 = some err ∧
    (ManagerForceFlush save m p).2.2.emits = [] ∧
    alookup (ManagerForceFlush save m p).1.strat.activeChunks p = none ∧
    ManagerForceFlush save (ManagerForceFlush save m p).1 p =
      ((ManagerForceFlush save m p).1, none, StepOutput.empty) := by
  have hrun : ManagerForceFlush save m p =
      ({ m with strat := { m.strat with activeChunks := aerase m.strat.activeChunks p } },
       some err,
       { emits := [], logs := [],
         saveCalls := [(finalizeChunk { a with chunk := { a.chunk with manual := true } },
           some err)] }) := by
    rw [ManagerForceFlush, ForceFlush, ha]
    simp [hsave]
  have hgone : alookup (aerase m.strat.activeChunks p) p = none :=
    alookup_aerase_self hnd
  refine ⟨by rw [hrun], by rw [hrun], by rw [hrun]; exact hgone, ?_⟩
  rw [hrun]
  rw [ManagerForceFlush, ForceFlush]
  simp only [hgone]

/-- Witness for C10: a store that always fails loses the forced chunk for
`a.txt`; the repeat call is a silent no-op. -/
theorem managerForceFlush_save_error_witness :
    (ManagerForceFlush (fun _ => some "boom")
        (NewManager (OnFileChange NewUnifiedStrategy
          { path := "a.txt", contents := "v1", time := 0 }) 0) "a.txt").2.1 = some "boom" ∧
    (ManagerForceFlush (fun _ => some "boom")
        (NewManager (OnFileChange NewUnifiedStrategy
          { path := "a.txt", contents := "v1", time := 0 }) 0) "a.txt").2.2.emits = [] ∧
    alookup (ManagerForceFlush (fun _ => some "boom")
        (NewManager (OnFileChange NewUnifiedStrategy
          { path := "a.txt", contents := "v1", time := 0 }) 0) "a.txt").1.strat.activeChunks
      "a.txt" = none ∧
    ManagerForceFlush (fun _ => some "boom")
        (ManagerForceFlush (fun _ => some "boom")
          (NewManager (OnFileChange NewUnifiedStrategy
            { path := "a.txt", contents := "v1", time := 0 }) 0) "a.txt").1 "a.txt" =
      ((ManagerForceFlush (fun _ => some "boom")
          (NewManager (OnFileChange NewUnifiedStrategy
            { path := "a.txt", contents := "v1", time := 0 }) 0) "a.txt").1,
       none, StepOutput.empty) :=
  managerForceFlush_save_error (fun _ => some "boom")
    (NewManager (OnFileChange NewUnifiedStrategy
      { path := "a.txt", contents := "v1", time := 0 }) 0)
    "a.txt"
    ⟨⟨mkChunkID "a.txt" 0, "a.txt", "", 0, 0, hashContent "v1", false⟩,
      0, hashContent "v1", "v1", "v1"⟩
    "boom" (by decide) rfl rfl

/-! ## C6: best-effort saves in timer-driven flush batches -/

/-- C6 amended: For a nonempty timer-driven flush batch (stale
flush or idle-entry flush-all), every chunk of the batch gets its own
`SaveChunk` attempt — one save call per chunk, each with its own result,
so a failure of one chunk does not stop the others — but a failed
chunk's error is silently discarded, nothing is logged, and the Emitter
is notified exactly once with the entire original batch, including any
chunks whose save failed. -/
theorem flushBatch_best_effort (save : Chunk → Option String) (m : Manager) (now : Int) :
    ((FlushStaleChunks m.strat now).2 ≠ [] →
      (flushStaleChunksLocked save m now).2.saveCalls =
        (FlushStaleChunks m.strat now).2.map (fun c => (c, save c)) ∧
      (flushStaleChunksLocked save m now).2.logs = [] ∧
      (flushStaleChunksLocked save m now).2.emits =
        [EmitEvent.flushed (FlushStaleChunks m.strat now).2]) ∧
    ((FlushAll m.strat).2 ≠ [] →
      (flushAllChunksLocked save m).2.saveCalls =
        (FlushAll m.strat).2.map (fun c => (c, save c)) ∧
      (flushAllChunksLocked save m).2.logs = [] ∧
      (flushAllChunksLocked save m).2.emits = [EmitEvent.flushed (FlushAll m.strat).2]) := by
  constructor
  · intro hne
    simp only [flushStaleChunksLocked]
    rw [if_neg hne]
    exact ⟨rfl, rfl, rfl⟩
  · intro hne
    simp only [flushAllChunksLocked]
    rw [if_neg hne]
    exact ⟨rfl, rfl, rfl⟩

set_option maxRecDepth 40000 in
/-- Witness for C6: a stale flush of one tracked file under a store that
always fails still attempts the save, logs nothing, and emits the batch. -/
theorem flushBatch_best_effort_witness :
    (flushStaleChunksLocked (fun _ => some "boom")
        (NewManager (OnFileChange NewUnifiedStrategy
          { path := "a.txt", contents := "v1", time := 0 }) 0)
        DefaultFlushTimeout).2.saveCalls =
      (FlushStaleChunks (OnFileChange NewUnifiedStrategy
          { path := "a.txt", contents := "v1", time := 0 }) DefaultFlushTimeout).2.map
        (fun c => (c, some "boom")) ∧
    (flushStaleChunksLocked (fun _ => some "boom")
        (NewManager (OnFileChange NewUnifiedStrategy
          { path := "a.txt", contents := "v1", time := 0 }) 0)
        DefaultFlushTimeout).2.logs = [] ∧
    (flushStaleChunksLocked (fun _ => some "boom")
        (NewManager (OnFileChange NewUnifiedStrategy
          { path := "a.txt", contents := "v1", time := 0 }) 0)
        DefaultFlushTimeout).2.emits =
      [EmitEvent.flushed (FlushStaleChunks (OnFileChange NewUnifiedStrategy
          { path := "a.txt", contents := "v1", time := 0 }) DefaultFlushTimeout).2] :=
  (flushBatch_best_effort (fun _ => some "boom")
    (NewManager (OnFileChange NewUnifiedStrategy
      { path := "a.txt", contents := "v1", time := 0 }) 0)
    DefaultFlushTimeout).1 (by decide)

set_option maxRecDepth 40000 in
/-- Counterexample for C6 as stated: two stale files, a store failing on
`a.txt` only. The save error is NOT logged (the log trace is empty), the
failed chunk is NOT dropped from the batch (the emitter receives both
file paths), while both saves were attempted with their results. -/
theorem flush_save_error_unlogged_full_batch_emitted :
    (flushStaleChunksLocked
        (fun c : Chunk => if c.filePath = "a.txt" then some "disk full" else none)
        (NewManager (OnFileChange (OnFileChange NewUnifiedStrategy
            { path := "a.txt", contents := "v1", time := 0 })
            { path := "b.txt", contents := "w1", time := 0 }) 0)
        DefaultFlushTimeout).2.logs = [] ∧
    (flushStaleChunksLocked
        (fun c : Chunk => if c.filePath = "a.txt" then some "disk full" else none)
        (NewManager (OnFileChange (OnFileChange NewUnifiedStrategy
            { path := "a.txt", contents := "v1", time := 0 })
            { path := "b.txt", contents := "w1", time := 0 }) 0)
        DefaultFlushTimeout).2.saveCalls.map (fun pc => (pc.1.filePath, pc.2)) =
      [("a.txt", some "disk full"), ("b.txt", none)] ∧
    (flushStaleChunksLocked
        (fun c : Chunk => if c.filePath = "a.txt" then some "disk full" else none)
        (NewManager (OnFileChange (OnFileChange NewUnifiedStrategy
            { path := "a.txt", contents := "v1", time := 0 })
            { path := "b.txt", contents := "w1", time := 0 }) 0)
        DefaultFlushTimeout).2.emits.map
        (fun ev => match ev with
          | EmitEvent.created c => [c.filePath]
          | EmitEvent.flushed cs => cs.map Chunk.filePath) =
      [["a.txt", "b.txt"]] := by
  decide

/-! ## C7: wildcard ignore rules -/

/-- C7 amended: For every ignore rule not restricted to
directories (no trailing `/`), the matcher glob-matches the rule against
the full relative path and, if that fails, falls back to comparing the
rule text for literal equality against each path segment — it does NOT
glob-match against ancestor directory base names, so a wildcard rule
matches via the fallback only when some segment equals the rule text
verbatim. -/
theorem matchesRule_glob_or_literal_segment (path rule : String) (isDir : Bool)
    (hd : endsWithSlash rule = false) :
    matchesRule path rule isDir =
      (filepathMatch rule path || (splitOnSlash path).contains rule) := by
  rw [matchesRule, hd]
  rfl

/-- Witness for C7: the wildcard rule `foo*` against `foobar/x.txt` is
decided by the full-path glob and literal segment containment alone. -/
theorem matchesRule_glob_or_literal_segment_witness :
    matchesRule "foobar/x.txt" "foo*" false =
      (filepathMatch "foo*" "foobar/x.txt" ||
        (splitOnSlash "foobar/x.txt").contains "foo*") :=
  matchesRule_glob_or_literal_segment "foobar/x.txt" "foo*" false (by decide)

/-- Counterexample for C7 as stated: under the spec's reading (glob
against each ancestor directory's base name as fallback) the wildcard
rule `foo*` matches `foobar/x.txt` via the ancestor `foobar`, but the
code's matcher rejects it — the fallback is literal segment equality,
not a glob. -/
theorem matchesRuleSpec_disagrees_on_wildcard_ancestor :
    matchesRuleSpec "foobar/x.txt" "foo*" false = true ∧
    matchesRule "foobar/x.txt" "foo*" false = false := by
  decide

/-! ## C8: shape of the generated diff -/

theorem suffixLenAux_le : ∀ (bound : Nat) (l1 l2 : List String),
    suffixLenAux bound l1 l2 ≤ bound := by
  intro bound
  induction bound with
  | zero => intro l1 l2; cases l1 <;> cases l2 <;> simp [suffixLenAux]
  | succ b ih =>
    intro l1 l2
    cases l1 with
    | nil => simp [suffixLenAux]
    | cons a as =>
      cases l2 with
      | nil => simp [suffixLenAux]
      | cons c cs =>
        simp only [suffixLenAux]
        split_ifs with h
        · have := ih as cs; omega
        · omega

theorem take_trailing_context_eq (l : List String) (cs : Nat) (hcs : cs ≤ l.length) :
    (l.drop (l.length - cs)).take (min l.length (l.length - cs + 3) - (l.length - cs)) =
      (l.drop (l.length - cs)).take 3 := by
  by_cases h3 : 3 ≤ cs
  · have h : min l.length (l.length - cs + 3) - (l.length - cs) = 3 := by omega
    rw [h]
  · have hlen : (l.drop (l.length - cs)).length = cs := by
      rw [List.length_drop]; omega
    have h : min l.length (l.length - cs + 3) - (l.length - cs) = cs := by omega
    rw [h, List.take_of_length_le (by omega), List.take_of_length_le (by omega)]

theorem computeSimpleDiff_eq_specBody (oldLines newLines : List String)
    (h : oldLines ≠ [] ∨ newLines ≠ []) :
    computeSimpleDiff oldLines newLines = specDiffBody oldLines newLines := by
  have hmax : ¬ max oldLines.length newLines.length = 0 := by
    rcases h with h | h
    · have := List.length_pos.mpr h; omega
    · have := List.length_pos.mpr h; omega
  simp only [computeSimpleDiff, specDiffBody]
  rw [if_neg hmax]
  have hL := List.drop_take (prefixLen oldLines newLines)
    (prefixLen oldLines newLines - 3) oldLines
  rw [hL]
  have hcs : suffixLenAux
      (min (oldLines.length - prefixLen oldLines newLines)
        (newLines.length - prefixLen oldLines newLines))
      oldLines.reverse newLines.reverse ≤
        oldLines.length - prefixLen oldLines newLines :=
    le_trans (suffixLenAux_le _ _ _) (min_le_left _ _)
  have hR := List.drop_take
    (oldLines.length - suffixLenAux
      (min (oldLines.length - prefixLen oldLines newLines)
        (newLines.length - prefixLen oldLines newLines))
      oldLines.reverse newLines.reverse)
    (prefixLen oldLines newLines) oldLines
  rw [hR]
  have hA := List.drop_take
    (newLines.length - suffixLenAux
      (min (oldLines.length - prefixLen oldLines newLines)
        (newLines.length - prefixLen oldLines newLines))
      oldLines.reverse newLines.reverse)
    (prefixLen oldLines newLines) newLines
  rw [hA]
  have hT := take_trailing_context_eq oldLines
    (suffixLenAux
      (min (oldLines.length - prefixLen oldLines newLines)
        (newLines.length - prefixLen oldLines newLines))
      oldLines.reverse newLines.reverse)
    (by omega)
  rw [hT]

/-- C8 amended: For every flushed chunk at least one of whose line
sequences is nonempty, the generated diff has exactly the shape the spec
describes: the header naming the file path with the 8-character
truncated initial and final hashes, the single hunk marker stating the
original and new line counts, up to 3 lines of leading context, all
initial lines outside the common prefix/suffix marked removed, all
latest lines outside the common prefix/suffix marked added, and up to 3
lines of trailing context — where `splitLines` maps empty content to an
empty sequence and preserves a trailing partial line. When both line
sequences are empty (an empty file tracked and never changed), the
generated diff is the bare header with no hunk marker at all — see the
counterexample. -/
theorem generateDiff_spec_shape (a : ActiveChunk)
    (h : splitLines a.initialContent ≠ [] ∨ splitLines a.latestContent ≠ []) :
    generateDiff a = specGenerateDiff a := by
  simp only [generateDiff, specGenerateDiff]
  rw [computeSimpleDiff_eq_specBody _ _ h]

/-- Witness for C8: the diff of the `v1 → v2` chunk has the spec shape. -/
theorem generateDiff_spec_shape_witness :
    generateDiff ⟨⟨mkChunkID "a.txt" 0, "a.txt", "", 0, 0, hashContent "v2", false⟩,
        0, hashContent "v1", "v1", "v2"⟩ =
      specGenerateDiff ⟨⟨mkChunkID "a.txt" 0, "a.txt", "", 0, 0, hashContent "v2", false⟩,
        0, hashContent "v1", "v1", "v2"⟩ :=
  generateDiff_spec_shape _ (Or.inl (by decide))

set_option maxRecDepth 40000 in
/-- Counterexample for C8 as stated: a chunk created from an empty file
and flushed stale is a real flushed chunk, yet its diff is the bare
header — it contains no hunk marker — while the spec's description
(`specGenerateDiff`) mandates the marker `@@ -1,0 +1,0 @@`. -/
theorem flushed_empty_content_diff_lacks_hunk :
    (FlushStaleChunks (OnFileChange NewUnifiedStrategy
        { path := "a.txt", contents := "", time := 0 }) DefaultFlushTimeout).2.map Chunk.diff =
      ["diff --git a/a.txt b/a.txt\nindex e3b0c442..e3b0c442\n--- a/a.txt\n+++ b/a.txt\n"] ∧
    specGenerateDiff ⟨⟨mkChunkID "a.txt" 0, "a.txt", "", 0, 0, hashContent "", false⟩,
        0, hashContent "", "", ""⟩ =
      "diff --git a/a.txt b/a.txt\nindex e3b0c442..e3b0c442\n--- a/a.txt\n+++ b/a.txt\n@@ -1,0 +1,0 @@" := by
  decide

end Carya
